import Mathlib

/-!
Verification of the N-body RK4 physics core of the 3-body-plus-one
repository (src/physics.js), its merged 3-body variant (ThreeBodyRK4_3D),
and the driver loop of src/app.js.

The JavaScript code computes with IEEE doubles; the embedding works over an
arbitrary linear ordered field `K`, with the transcendental library calls
(Math.sqrt, Math.pow) passed in as an abstract operation table `FloatOps`.
Flat Float64Array buffers of length 6*n become functions `Fin (6*n) → K`
with the source's index layout [x... y... z... vx... vy... vz...] kept
as-is.  Loop accumulations of field elements become finite sums; a JS loop
with an early return becomes List.findSome? over the loop's index list.
-/

namespace Physics

variable {K : Type} [LinearOrderedField K]

/-- Abstract table for the JS Math library calls the physics code makes:
sqrt is Math.sqrt, fpow is the two-argument Math.pow. -/
structure FloatOps (K : Type) where
  sqrt : K → K
  fpow : K → K → K

/-- Math.hypot(x, y, z) from the source, expressed through sqrt. -/
def hypot3 (ops : FloatOps K) (x y z : K) : K :=
  ops.sqrt (x * x + y * y + z * z)

/-- Gravitational constant of physics.js line 2: 2.959122082855911e-4 in
AU^3 / (Msun * day^2), as the exact value of the decimal literal. -/
def G : K := 2959122082855911 / 10 ^ 19

/-- State of an NBodyRK4 engine: masses, the flat 6n state buffer
[x... y... z... vx... vy... vz...], and soft2 = softening squared. -/
structure NBodyRK4 (K : Type) (n : ℕ) where
  m : Fin n → K
  state : Fin (6 * n) → K
  soft2 : K

/-- Index of coordinate c of body i in the position block (slot 3*i+c). -/
def posIdx (n : ℕ) (i : Fin n) (c : Fin 3) : Fin (6 * n) :=
  ⟨3 * i.val + c.val, by have := i.isLt; have := c.isLt; omega⟩

/-- Index of coordinate c of body i in the velocity block (slot 3*n+3*i+c). -/
def velIdx (n : ℕ) (i : Fin n) (c : Fin 3) : Fin (6 * n) :=
  ⟨3 * n + 3 * i.val + c.val, by have := i.isLt; have := c.isLt; omega⟩

/-- Read position coordinate c of body i from a 6n buffer. -/
def bpos (s : Fin (6 * n) → K) (i : Fin n) (c : Fin 3) : K :=
  s (posIdx n i c)

/-- Read velocity coordinate c of body i from a 6n buffer. -/
def bvel (s : Fin (6 * n) → K) (i : Fin n) (c : Fin 3) : K :=
  s (velIdx n i c)

/-- Squared coordinate distance dx*dx + dy*dy + dz*dz between bodies i and j,
as physics.js writes it. -/
def dist2 (s : Fin (6 * n) → K) (i j : Fin n) : K :=
  (bpos s i 0 - bpos s j 0) * (bpos s i 0 - bpos s j 0) +
  (bpos s i 1 - bpos s j 1) * (bpos s i 1 - bpos s j 1) +
  (bpos s i 2 - bpos s j 2) * (bpos s i 2 - bpos s j 2)

/-- Acceleration accumulator of NBodyRK4.deriv: for body i, coordinate c,
the sum over j ≠ i of f * d where r2 = dist2 + soft2,
invR3 = 1 / Math.pow(r2, 1.5) and f = -G * m[j] * invR3. -/
def accel (ops : FloatOps K) (m : Fin n → K) (soft2 : K)
    (s : Fin (6 * n) → K) (i : Fin n) (c : Fin 3) : K :=
  ∑ j : Fin n,
    if j ≠ i then
      -G * m j * (1 / ops.fpow (dist2 s i j + soft2) (3 / 2)) *
        (bpos s i c - bpos s j c)
    else 0

/-- NBodyRK4.deriv (physics.js lines 21-42): out[i] = s[3n+i] for i < 3n
(positions change at the velocities), and the acceleration block
out[3n+3i+c] = accel i c.  The output buffer is returned rather than
written into a caller-supplied array. -/
def deriv (ops : FloatOps K) (m : Fin n → K) (soft2 : K)
    (s : Fin (6 * n) → K) : Fin (6 * n) → K :=
  fun idx =>
    if h : idx.val < 3 * n then
      s ⟨3 * n + idx.val, by have := idx.isLt; omega⟩
    else
      accel ops m soft2 s
        ⟨(idx.val - 3 * n) / 3, by have := idx.isLt; omega⟩
        ⟨(idx.val - 3 * n) % 3, by omega⟩

/-- NBodyRK4.step (physics.js lines 44-56): classical RK4 update of the
whole 6n buffer; masses and soft2 are carried over unchanged. -/
def step (ops : FloatOps K) (e : NBodyRK4 K n) (dt : K) : NBodyRK4 K n :=
  let s := e.state
  let k1 := deriv ops e.m e.soft2 s
  let k2 := deriv ops e.m e.soft2 (fun p => s p + 1 / 2 * dt * k1 p)
  let k3 := deriv ops e.m e.soft2 (fun p => s p + 1 / 2 * dt * k2 p)
  let k4 := deriv ops e.m e.soft2 (fun p => s p + dt * k3 p)
  { m := e.m
    soft2 := e.soft2
    state := fun i => s i + dt / 6 * (k1 i + 2 * k2 i + 2 * k3 i + k4 i) }

/-- NBodyRK4.energy (physics.js lines 58-72): kinetic sum over bodies plus
the i < j pairwise potential sum. -/
def energy (ops : FloatOps K) (e : NBodyRK4 K n) : K :=
  (∑ i : Fin n,
    1 / 2 * e.m i *
      (bvel e.state i 0 * bvel e.state i 0 +
       bvel e.state i 1 * bvel e.state i 1 +
       bvel e.state i 2 * bvel e.state i 2)) +
  ∑ i : Fin n, ∑ j : Fin n,
    if i < j then
      -G * e.m i * e.m j / ops.sqrt (dist2 e.state i j + e.soft2)
    else 0

/-- Row of a positions/velocities input array: a 3-vector. -/
abbrev Vec3 (K : Type) := Fin 3 → K

/-- Pure part of the NBodyRK4 constructor, once the n rows of pos and vel
have been read: state[3i+c] = pos[i][c], state[3n+3i+c] = vel[i][c],
soft2 = softening * softening. -/
def mkNBodyF (m : Fin n → K) (pos vel : Fin n → Vec3 K) (softening : K) :
    NBodyRK4 K n :=
  { m := m
    state := fun idx =>
      if h : idx.val < 3 * n then
        pos ⟨idx.val / 3, by omega⟩ ⟨idx.val % 3, by omega⟩
      else
        vel ⟨(idx.val - 3 * n) / 3, by have := idx.isLt; omega⟩
          ⟨(idx.val - 3 * n) % 3, by omega⟩
    soft2 := softening * softening }

/-- Read the first n rows of a JS array of rows.  The constructor loop
accesses pos[i][0] for every i < n; when row i does not exist the access
throws a TypeError, which is the `none` case here. -/
def rowsUpTo (n : ℕ) (xs : List (Vec3 K)) : Option (Fin n → Vec3 K) :=
  if h : n ≤ xs.length then
    some (fun i => xs.get ⟨i.val, lt_of_lt_of_le i.isLt h⟩)
  else none

/-- NBodyRK4 constructor (physics.js lines 5-19): n = masses.length, then
the fill loop reads pos[i] and vel[i] for each i < n; a missing row makes
construction throw, modelled as `none`. -/
def mkNBody (masses : List K) (pos vel : List (Vec3 K)) (softening : K) :
    Option (NBodyRK4 K masses.length) :=
  match rowsUpTo masses.length pos, rowsUpTo masses.length vel with
  | some p, some v => some (mkNBodyF (fun i => masses.get i) p v softening)
  | _, _ => none

end Physics

namespace Physics

variable {K : Type} [LinearOrderedField K] {n : ℕ}

/-- Slot 3*i+c of the derivative buffer is the velocity read s[3*n + (3*i+c)]. -/
lemma deriv_posIdx (ops : FloatOps K) (m : Fin n → K) (soft2 : K)
    (s : Fin (6 * n) → K) (i : Fin n) (c : Fin 3) :
    deriv ops m soft2 s (posIdx n i c) = s (velIdx n i c) := by
  have hi := i.isLt
  have hc := c.isLt
  rw [deriv, dif_pos (by simp only [posIdx]; omega)]
  apply congrArg s
  apply Fin.ext
  simp only [posIdx, velIdx]
  omega

/-- Slot 3*n+3*i+c of the derivative buffer is the acceleration of body i. -/
lemma deriv_velIdx (ops : FloatOps K) (m : Fin n → K) (soft2 : K)
    (s : Fin (6 * n) → K) (i : Fin n) (c : Fin 3) :
    deriv ops m soft2 s (velIdx n i c) = accel ops m soft2 s i c := by
  have hi := i.isLt
  have hc := c.isLt
  rw [deriv, dif_neg (by simp only [velIdx]; omega)]
  have h1 : (⟨((velIdx n i c).val - 3 * n) / 3,
      by have := (velIdx n i c).isLt; omega⟩ : Fin n) = i := by
    apply Fin.ext
    simp only [velIdx]
    omega
  have h2 : (⟨((velIdx n i c).val - 3 * n) % 3, by omega⟩ : Fin 3) = c := by
    apply Fin.ext
    simp only [velIdx]
    omega
  rw [h1, h2]

/-- Squared separation is symmetric in the two bodies. -/
lemma dist2_comm (s : Fin (6 * n) → K) (i j : Fin n) :
    dist2 s i j = dist2 s j i := by
  rw [dist2, dist2]
  ring

/-- Claim C1: step(dt) replaces the 6N state s in place with
s + (dt/6)*(k1 + 2*k2 + 2*k3 + k4), where k1 = derivative(s),
k2 = derivative(s + 0.5*dt*k1), k3 = derivative(s + 0.5*dt*k2),
k4 = derivative(s + dt*k3); the masses and softening of the engine are
unchanged by the step. -/
theorem step_is_rk4 (ops : FloatOps K) (e : NBodyRK4 K n) (dt : K) :
    (step ops e dt).m = e.m ∧ (step ops e dt).soft2 = e.soft2 ∧
    (step ops e dt).state = fun idx =>
      let s := e.state
      let k1 := deriv ops e.m e.soft2 s
      let k2 := deriv ops e.m e.soft2 (fun p => s p + 1 / 2 * dt * k1 p)
      let k3 := deriv ops e.m e.soft2 (fun p => s p + 1 / 2 * dt * k2 p)
      let k4 := deriv ops e.m e.soft2 (fun p => s p + dt * k3 p)
      s idx + dt / 6 * (k1 idx + 2 * k2 idx + 2 * k3 idx + k4 idx) :=
  ⟨rfl, rfl, rfl⟩

/-- Claim C2: derivative(s) has its first 3N slots equal to the velocity
block of s, and the acceleration slot of body i, coordinate c, equals the
sum over j ≠ i of -G * mass_j * (pos_i - pos_j) / (|pos_i - pos_j|² + soft2)^1.5,
with G the exact decimal 2.959122082855911e-4. -/
theorem deriv_is_gravity (ops : FloatOps K) (m : Fin n → K) (soft2 : K)
    (s : Fin (6 * n) → K) (i : Fin n) (c : Fin 3) :
    deriv ops m soft2 s (posIdx n i c) = s (velIdx n i c) ∧
    deriv ops m soft2 s (velIdx n i c) =
      (∑ j : Fin n,
        if j ≠ i then
          -G * m j * (bpos s i c - bpos s j c) /
            ops.fpow
              ((bpos s i 0 - bpos s j 0) ^ 2 + (bpos s i 1 - bpos s j 1) ^ 2 +
                (bpos s i 2 - bpos s j 2) ^ 2 + soft2) (3 / 2)
        else 0) ∧
    (G : K) = 2959122082855911 / 10 ^ 19 := by
  refine ⟨deriv_posIdx ops m soft2 s i c, ?_, rfl⟩
  rw [deriv_velIdx, accel]
  refine Finset.sum_congr rfl fun j _ => ?_
  by_cases hji : j ≠ i
  · rw [if_pos hji, if_pos hji, dist2]
    ring_nf
  · rw [if_neg hji, if_neg hji]

/-- Claim C3: energy() is the kinetic sum Σ 0.5*m_i*|v_i|² plus the pairwise
potential Σ over i < j of -G*m_i*m_j / sqrt(|pos_i - pos_j|² + soft2); it is
a pure function of the engine (the embedding returns a value and leaves the
engine untouched). -/
theorem energy_is_kinetic_plus_potential (ops : FloatOps K) (e : NBodyRK4 K n) :
    energy ops e =
      (∑ i : Fin n, 1 / 2 * e.m i *
        (bvel e.state i 0 ^ 2 + bvel e.state i 1 ^ 2 + bvel e.state i 2 ^ 2)) +
      ∑ i : Fin n, ∑ j : Fin n,
        if i < j then
          -G * e.m i * e.m j /
            ops.sqrt
              ((bpos e.state i 0 - bpos e.state j 0) ^ 2 +
               (bpos e.state i 1 - bpos e.state j 1) ^ 2 +
               (bpos e.state i 2 - bpos e.state j 2) ^ 2 + e.soft2)
        else 0 := by
  rw [energy]
  congr 1
  · refine Finset.sum_congr rfl fun i _ => ?_
    ring_nf
  · refine Finset.sum_congr rfl fun i _ => ?_
    refine Finset.sum_congr rfl fun j _ => ?_
    by_cases hij : i < j
    · rw [if_pos hij, if_pos hij, dist2]
      ring_nf
    · rw [if_neg hij, if_neg hij]

/-- Claim C8: for a two-body system the acceleration slots of the derivative
satisfy mass_0 * accel_0 = -(mass_1 * accel_1) in every coordinate: the total
momentum derivative of an isolated pair is zero. -/
theorem twoBody_momentum_balance (ops : FloatOps K) (m : Fin 2 → K)
    (soft2 : K) (s : Fin (6 * 2) → K) (c : Fin 3) :
    m 0 * deriv ops m soft2 s (velIdx 2 0 c) =
      -(m 1 * deriv ops m soft2 s (velIdx 2 1 c)) := by
  rw [deriv_velIdx, deriv_velIdx, accel, accel, Fin.sum_univ_two, Fin.sum_univ_two]
  have h01 : dist2 s (0 : Fin 2) 1 = dist2 s 1 0 := dist2_comm s 0 1
  simp only [ne_eq, Fin.isValue, not_true_eq_false, if_false, zero_add, add_zero,
    if_true, not_false_eq_true, Fin.zero_eq_one_iff, Fin.one_eq_zero_iff,
    Nat.succ_ne_self, OfNat.ofNat_ne_one, OfNat.one_ne_ofNat]
  rw [h01]
  ring

/-- Claim C6 counterexample: masses has length 1, positions length 2,
velocities length 1 — the three sequences have mismatched lengths, yet
construction succeeds (the constructor only reads rows 0..n-1, n =
masses.length, and never compares lengths). -/
theorem mkNBody_mismatched_lengths_succeed :
    ([(1 : ℚ)].length ≠ [(fun _ => 0 : Vec3 ℚ), (fun _ => 0 : Vec3 ℚ)].length) ∧
    (mkNBody [(1 : ℚ)] [(fun _ => 0 : Vec3 ℚ), (fun _ => 0 : Vec3 ℚ)]
      [(fun _ => 0 : Vec3 ℚ)] 0).isSome = true := by
  exact ⟨by decide, rfl⟩

/-- Claim C6 as amended: construction succeeds exactly when the positions and
velocities lists are at least as long as the masses list (the constructor
reads rows 0..n-1 of each, n = masses.length, and a missing row throws); in
particular three equal-length sequences always succeed, while a mismatch in
which pos and vel are longer than masses is not rejected. -/
theorem mkNBody_isSome_iff (masses : List K) (pos vel : List (Vec3 K))
    (softening : K) :
    (mkNBody masses pos vel softening).isSome = true ↔
      masses.length ≤ pos.length ∧ masses.length ≤ vel.length := by
  rw [mkNBody]
  by_cases h1 : masses.length ≤ pos.length <;>
    by_cases h2 : masses.length ≤ vel.length <;>
      simp [rowsUpTo, h1, h2]

end Physics

namespace Physics

variable {K : Type} [LinearOrderedField K] {n : ℕ}

/-!
The merged second variant of the physics module (src/unnamed/part_002):
a hard-wired 3-body integrator with an 18-slot state buffer
[x... y... z... vx... vy... vz...], soft2 = softening squared.
-/

/-- State of the ThreeBodyRK4_3D engine of the merged variant. -/
structure ThreeBodyRK4_3D (K : Type) where
  m : Fin 3 → K
  state : Fin 18 → K
  soft2 : K

/-- Position read s[3*i+c] of the 3-body variant. -/
def pos3 (s : Fin 18 → K) (i : Fin 3) (c : Fin 3) : K :=
  s ⟨3 * i.val + c.val, by have := i.isLt; have := c.isLt; omega⟩

/-- Velocity read s[9+3*i+c] of the 3-body variant. -/
def vel3 (s : Fin 18 → K) (i : Fin 3) (c : Fin 3) : K :=
  s ⟨9 + 3 * i.val + c.val, by have := i.isLt; have := c.isLt; omega⟩

/-- Acceleration accumulator of ThreeBodyRK4_3D.deriv: same gravity formula
as NBodyRK4 with the body count fixed at 3. -/
def accel3 (ops : FloatOps K) (m : Fin 3 → K) (soft2 : K) (s : Fin 18 → K)
    (i : Fin 3) (c : Fin 3) : K :=
  ∑ j : Fin 3,
    if j ≠ i then
      -G * m j *
        (1 / ops.fpow
          ((pos3 s i 0 - pos3 s j 0) * (pos3 s i 0 - pos3 s j 0) +
           (pos3 s i 1 - pos3 s j 1) * (pos3 s i 1 - pos3 s j 1) +
           (pos3 s i 2 - pos3 s j 2) * (pos3 s i 2 - pos3 s j 2) + soft2)
          (3 / 2)) *
        (pos3 s i c - pos3 s j c)
    else 0

/-- ThreeBodyRK4_3D.deriv: out[i] = s[9+i] for i < 9, acceleration block
out[9+3*i+c] = accel3 i c. -/
def deriv3 (ops : FloatOps K) (m : Fin 3 → K) (soft2 : K)
    (s : Fin 18 → K) : Fin 18 → K :=
  fun idx =>
    if h : idx.val < 9 then
      s ⟨9 + idx.val, by have := idx.isLt; omega⟩
    else
      accel3 ops m soft2 s
        ⟨(idx.val - 9) / 3, by have := idx.isLt; omega⟩
        ⟨(idx.val - 9) % 3, by omega⟩

/-- ThreeBodyRK4_3D.step: RK4 over the 18-slot buffer. -/
def step3 (ops : FloatOps K) (t : ThreeBodyRK4_3D K) (dt : K) :
    ThreeBodyRK4_3D K :=
  let s := t.state
  let k1 := deriv3 ops t.m t.soft2 s
  let k2 := deriv3 ops t.m t.soft2 (fun p => s p + 1 / 2 * dt * k1 p)
  let k3 := deriv3 ops t.m t.soft2 (fun p => s p + 1 / 2 * dt * k2 p)
  let k4 := deriv3 ops t.m t.soft2 (fun p => s p + dt * k3 p)
  { m := t.m
    soft2 := t.soft2
    state := fun i => s i + dt / 6 * (k1 i + 2 * k2 i + 2 * k3 i + k4 i) }

/-- Pair potential term U(i,j) of ThreeBodyRK4_3D.energy. -/
def energyU (ops : FloatOps K) (m : Fin 3 → K) (soft2 : K) (s : Fin 18 → K)
    (i j : Fin 3) : K :=
  -G * m i * m j /
    ops.sqrt
      ((pos3 s i 0 - pos3 s j 0) * (pos3 s i 0 - pos3 s j 0) +
       (pos3 s i 1 - pos3 s j 1) * (pos3 s i 1 - pos3 s j 1) +
       (pos3 s i 2 - pos3 s j 2) * (pos3 s i 2 - pos3 s j 2) + soft2)

/-- ThreeBodyRK4_3D.energy: kinetic sum plus U(0,1) + U(0,2) + U(1,2). -/
def energy3 (ops : FloatOps K) (t : ThreeBodyRK4_3D K) : K :=
  (∑ i : Fin 3,
    1 / 2 * t.m i *
      (vel3 t.state i 0 * vel3 t.state i 0 +
       vel3 t.state i 1 * vel3 t.state i 1 +
       vel3 t.state i 2 * vel3 t.state i 2)) +
  (energyU ops t.m t.soft2 t.state 0 1 + energyU ops t.m t.soft2 t.state 0 2 +
    energyU ops t.m t.soft2 t.state 1 2)

/-- ThreeBodyRK4_3D constructor, pure part: state[3i+c] = pos[i][c],
state[9+3i+c] = vel[i][c], soft2 = softening * softening. -/
def mk3F (m : Fin 3 → K) (pos vel : Fin 3 → Vec3 K) (softening : K) :
    ThreeBodyRK4_3D K :=
  { m := m
    state := fun idx =>
      if h : idx.val < 9 then
        pos ⟨idx.val / 3, by omega⟩ ⟨idx.val % 3, by omega⟩
      else
        vel ⟨(idx.val - 9) / 3, by have := idx.isLt; omega⟩
          ⟨(idx.val - 9) % 3, by omega⟩
    soft2 := softening * softening }

/-- View a 3-body variant engine as an NBodyRK4 engine with n = 3; the two
state buffer types Fin 18 → K and Fin (6*3) → K coincide. -/
def toNBody (t : ThreeBodyRK4_3D K) : NBodyRK4 K 3 :=
  { m := t.m, state := t.state, soft2 := t.soft2 }

/-- Unfolding of the strict upper-triangle double sum over Fin 3 into its
three surviving terms. -/
lemma pairSum_univ_three (f : Fin 3 → Fin 3 → K) :
    (∑ i : Fin 3, ∑ j : Fin 3, if i < j then f i j else 0) =
      f 0 1 + f 0 2 + f 1 2 := by
  simp [Fin.sum_univ_three]

/-- Derivative of the 3-body variant agrees with the general engine at n = 3. -/
lemma deriv3_eq_deriv (ops : FloatOps K) (m : Fin 3 → K) (soft2 : K)
    (s : Fin 18 → K) : deriv3 ops m soft2 s = deriv ops m soft2 s := by
  funext idx
  rw [deriv3, deriv]
  by_cases h : idx.val < 9
  · rw [dif_pos h, dif_pos (by omega)]
  · rw [dif_neg h, dif_neg (by omega)]
    rw [accel3, accel]
    refine Finset.sum_congr rfl fun j _ => rfl

/-- Constructor of the 3-body variant agrees with the general one at n = 3. -/
lemma mk3F_eq_mkNBodyF (m : Fin 3 → K) (pos vel : Fin 3 → Vec3 K)
    (softening : K) :
    toNBody (mk3F m pos vel softening) = mkNBodyF m pos vel softening := by
  rw [toNBody, mk3F, mkNBodyF]

/-- Claim C10: the two merged physics-module variants agree on 3 bodies:
the constructors build identical 18-slot state buffers from the same
masses, positions, velocities and softening, and deriv, step(dt) and
energy() of ThreeBodyRK4_3D coincide with those of NBodyRK4 at n = 3 for
every state and every dt. -/
theorem threeBody_variant_equiv (ops : FloatOps K) :
    (∀ (m : Fin 3 → K) (pos vel : Fin 3 → Vec3 K) (softening : K),
      toNBody (mk3F m pos vel softening) = mkNBodyF m pos vel softening) ∧
    (∀ (m : Fin 3 → K) (soft2 : K) (s : Fin 18 → K),
      deriv3 ops m soft2 s = deriv ops m soft2 s) ∧
    (∀ (t : ThreeBodyRK4_3D K) (dt : K),
      toNBody (step3 ops t dt) = step ops (toNBody t) dt) ∧
    (∀ t : ThreeBodyRK4_3D K, energy3 ops t = energy ops (toNBody t)) := by
  refine ⟨mk3F_eq_mkNBodyF, deriv3_eq_deriv ops, fun t dt => ?_, fun t => ?_⟩
  · rw [step3, step, toNBody]
    simp only [deriv3_eq_deriv, toNBody]
  · simp only [energy, energy3, toNBody]
    rw [pairSum_univ_three]
    rfl

end Physics

namespace Physics

variable {K : Type} [LinearOrderedField K] {n : ℕ}

/-!
Collision and escape detection (src/physics.js lines 85-214).  The JS for
loops with early return become List.findSome? over the loop index list.
-/

/-- Radius model chosen by detectCollision: the JS code tests
opts.mode === 'vdt' and treats every other mode string as 'core'. -/
inductive CollMode where
  | core : CollMode
  | vdt : CollMode

/-- Options of detectCollision; fudge and dt are `none` when the caller
leaves them out (the JS Number.isFinite guard), with defaults 1.2 and 0. -/
structure CollOpts (K : Type) where
  mode : CollMode
  fudge : Option K
  dt : Option K

/-- Effective fudge factor: Number.isFinite(opts.fudge) ? opts.fudge : 1.2. -/
def fudgeVal (o : CollOpts K) : K :=
  match o.fudge with
  | some f => f
  | none => 12 / 10

/-- Effective dt for the vdt radius model: caller value or 0. -/
def dtVal (o : CollOpts K) : K :=
  match o.dt with
  | some d => d
  | none => 0

/-- physicalRadiusAU (physics.js lines 88-104): mass-to-radius model with
the mass clamped to Earth mass when nonpositive, then three regimes by
mass threshold, each a power law through Math.pow.  All decimal constants
are taken exactly. -/
def physicalRadiusAU (ops : FloatOps K) (m0 : K) : K :=
  let rSunAU : K := 465047 / 10 ^ 8
  let mJupMsun : K := 954588 / 10 ^ 9
  let rJupAU : K := rSunAU * (10045 / 10 ^ 5)
  let mEarthMsun : K := 3003 / 10 ^ 9
  let rEarthAU : K := rSunAU / 109
  let m := if m0 ≤ 0 then mEarthMsun else m0
  if 1 / 10 ≤ m then
    rSunAU * ops.fpow m (8 / 10)
  else if mJupMsun ≤ m then
    rJupAU * ops.fpow (m / mJupMsun) (3 / 100)
  else if mEarthMsun ≤ m then
    rEarthAU * ops.fpow (m / mEarthMsun) (27 / 100)
  else
    rEarthAU * (1 / 2)

/-- Center separation Math.hypot(dx, dy, dz) of bodies i and j. -/
def pairSep (ops : FloatOps K) (s : Fin (6 * n) → K) (i j : Fin n) : K :=
  hypot3 ops (bpos s i 0 - bpos s j 0) (bpos s i 1 - bpos s j 1)
    (bpos s i 2 - bpos s j 2)

/-- Per-body collision radius r[i] built by detectCollision: |v| * dt * fudge
in vdt mode, physicalRadiusAU(mass) * fudge in core mode. -/
def collRadius (ops : FloatOps K) (s : Fin (6 * n) → K) (masses : Fin n → K)
    (opts : CollOpts K) (i : Fin n) : K :=
  match opts.mode with
  | CollMode.vdt =>
      hypot3 ops (bvel s i 0) (bvel s i 1) (bvel s i 2) * dtVal opts *
        fudgeVal opts
  | CollMode.core => physicalRadiusAU ops (masses i) * fudgeVal opts

/-- Result record {i, j, sep, minSep} of detectCollision. -/
structure CollRes (K : Type) where
  i : ℕ
  j : ℕ
  sep : K
  minSep : K

/-- Index pairs (i, j), i < j, in the scan order of the nested loops of
detectCollision: outer i ascending, inner j ascending from i+1. -/
def pairList (n : ℕ) : List (Fin n × Fin n) :=
  (List.finRange n).flatMap fun i =>
    ((List.finRange n).filter fun j => i < j).map fun j => (i, j)

/-- Body of the pairwise scan of detectCollision: report pair p when the
center separation is strictly below minSep = r[i] + r[j]. -/
def collCheck (ops : FloatOps K) (s : Fin (6 * n) → K) (masses : Fin n → K)
    (opts : CollOpts K) (p : Fin n × Fin n) : Option (CollRes K) :=
  if pairSep ops s p.1 p.2 <
      collRadius ops s masses opts p.1 + collRadius ops s masses opts p.2 then
    some ⟨p.1.val, p.2.val, pairSep ops s p.1 p.2,
      collRadius ops s masses opts p.1 + collRadius ops s masses opts p.2⟩
  else none

/-- detectCollision (physics.js lines 115-147): scan the pairs in loop
order and return the first with sep < r[i] + r[j], else null. -/
def detectCollision (ops : FloatOps K) (e : NBodyRK4 K n)
    (masses : Fin n → K) (opts : CollOpts K) : Option (CollRes K) :=
  (pairList n).findSome? (collCheck ops e.state masses opts)

/-- Bodies i and j are colliding: center separation strictly below the sum
of the two per-body radii. -/
def collides (ops : FloatOps K) (e : NBodyRK4 K n) (masses : Fin n → K)
    (opts : CollOpts K) (i j : Fin n) : Prop :=
  pairSep ops e.state i j <
    collRadius ops e.state masses opts i + collRadius ops e.state masses opts j

/-- Specification of detectCollision claimed by the spec: null exactly when
no unordered pair is strictly colliding, and otherwise the reported pair is
a colliding pair with the stated fields that is least in index order
(lowest i, then lowest j). -/
def collisionSpec (ops : FloatOps K) (e : NBodyRK4 K n) (masses : Fin n → K)
    (opts : CollOpts K) : Prop :=
  match detectCollision ops e masses opts with
  | none => ∀ i j : Fin n, i < j → ¬ collides ops e masses opts i j
  | some res =>
      ∃ (hi : res.i < n) (hj : res.j < n),
        res.i < res.j ∧
        res.sep = pairSep ops e.state ⟨res.i, hi⟩ ⟨res.j, hj⟩ ∧
        res.minSep = collRadius ops e.state masses opts ⟨res.i, hi⟩ +
          collRadius ops e.state masses opts ⟨res.j, hj⟩ ∧
        res.sep < res.minSep ∧
        ∀ i j : Fin n, i < j →
          (i.val < res.i ∨ (i.val = res.i ∧ j.val < res.j)) →
          ¬ collides ops e masses opts i j

/-- Strict lexicographic order on index pairs: lowest first component, then
lowest second component. -/
def pairLexLt {n : ℕ} (p q : Fin n × Fin n) : Prop :=
  p.1 < q.1 ∨ (p.1 = q.1 ∧ p.2 < q.2)

lemma pairLexLt_asymm {n : ℕ} :
    ∀ p q : Fin n × Fin n, pairLexLt p q → ¬ pairLexLt q p := by
  intro p q h g
  simp only [pairLexLt, Fin.lt_def, Fin.ext_iff] at h g
  omega

/-- Generic first-hit property of findSome? over a strictly sorted list:
the hit element is in the list, and every strictly smaller element of the
list misses. -/
lemma findSome?_sorted_first {α β : Type _} {R : α → α → Prop}
    {f : α → Option β} {b : β} :
    ∀ {l : List α}, (∀ x y, R x y → ¬ R y x) → l.Pairwise R →
      l.findSome? f = some b →
      ∃ a ∈ l, f a = some b ∧ ∀ x ∈ l, R x a → f x = none := by
  intro l
  induction l with
  | nil => intro _ _ h; simp at h
  | cons c t ih =>
    intro hasym hsort h
    cases hfc : f c with
    | some v =>
      simp only [List.findSome?_cons, hfc] at h
      refine ⟨c, List.mem_cons_self c t, by rw [hfc, h], ?_⟩
      intro x hx hR
      rcases List.mem_cons.mp hx with rfl | hxt
      · exact absurd hR (hasym x x hR)
      · exact absurd hR (hasym c x ((List.pairwise_cons.mp hsort).1 x hxt))
    | none =>
      simp only [List.findSome?_cons, hfc] at h
      obtain ⟨a, hat, hfa, hmin⟩ := ih hasym (List.pairwise_cons.mp hsort).2 h
      refine ⟨a, List.mem_cons_of_mem c hat, hfa, ?_⟩
      intro x hx hR
      rcases List.mem_cons.mp hx with rfl | hxt
      · exact hfc
      · exact hmin x hxt hR

lemma mem_pairList {n : ℕ} {i j : Fin n} : (i, j) ∈ pairList n ↔ i < j := by
  rw [pairList, List.mem_flatMap]
  constructor
  · rintro ⟨a, _, hmem⟩
    rw [List.mem_map] at hmem
    obtain ⟨b, hb, heq⟩ := hmem
    rw [List.mem_filter] at hb
    have h1 : a = i := congrArg Prod.fst heq
    have h2 : b = j := congrArg Prod.snd heq
    subst h1
    subst h2
    exact of_decide_eq_true hb.2
  · intro hij
    refine ⟨i, List.mem_finRange i, ?_⟩
    rw [List.mem_map]
    exact ⟨j, List.mem_filter.mpr ⟨List.mem_finRange j, decide_eq_true hij⟩, rfl⟩

lemma pairList_pairwise (n : ℕ) : (pairList n).Pairwise pairLexLt := by
  rw [pairList, List.pairwise_flatMap]
  constructor
  · intro a _
    rw [List.pairwise_map]
    refine List.Pairwise.imp ?_ (List.Pairwise.filter _ (List.pairwise_lt_finRange n))
    intro b c hbc
    exact Or.inr ⟨rfl, hbc⟩
  · refine List.Pairwise.imp ?_ (List.pairwise_lt_finRange n)
    intro a b hab x hx y hy
    rw [List.mem_map] at hx hy
    obtain ⟨xb, _, rfl⟩ := hx
    obtain ⟨yb, _, rfl⟩ := hy
    exact Or.inl hab

lemma collCheck_none_iff (ops : FloatOps K) (s : Fin (6 * n) → K)
    (masses : Fin n → K) (opts : CollOpts K) (p : Fin n × Fin n) :
    collCheck ops s masses opts p = none ↔
      ¬ pairSep ops s p.1 p.2 <
        collRadius ops s masses opts p.1 + collRadius ops s masses opts p.2 := by
  rw [collCheck]
  split <;> simp [*]

/-- Claim C4: detectCollision scans all unordered pairs and returns the
first pair in index order (lowest i, then lowest j) whose center separation
is strictly below r_i + r_j, with r built from physicalRadiusAU * fudge in
core mode and |v| * dt * fudge in vdt mode; it returns null when no pair
satisfies the strict inequality, so a pair at exact equality is never
reported. -/
theorem detectCollision_first_pair (ops : FloatOps K) (e : NBodyRK4 K n)
    (masses : Fin n → K) (opts : CollOpts K) :
    collisionSpec ops e masses opts := by
  cases hres : detectCollision ops e masses opts with
  | none =>
    simp only [collisionSpec, hres]
    intro i j hij hcol
    rw [detectCollision] at hres
    have hnone := List.findSome?_eq_none_iff.mp hres (i, j) (mem_pairList.mpr hij)
    rw [collCheck_none_iff] at hnone
    exact hnone hcol
  | some res =>
    simp only [collisionSpec, hres]
    rw [detectCollision] at hres
    obtain ⟨a, hal, hfa, hmin⟩ :=
      findSome?_sorted_first pairLexLt_asymm (pairList_pairwise n) hres
    obtain ⟨i, j⟩ := a
    have hij : i < j := mem_pairList.mp hal
    rw [collCheck] at hfa
    by_cases hcol : pairSep ops e.state i j <
        collRadius ops e.state masses opts i + collRadius ops e.state masses opts j
    · rw [if_pos hcol] at hfa
      have hresv := (Option.some.injEq _ _).mp hfa
      subst hresv
      refine ⟨i.isLt, j.isLt, hij, ?_, ?_, hcol, ?_⟩
      · exact congrArg₂ (pairSep ops e.state) (Fin.ext rfl).symm (Fin.ext rfl).symm
      · exact congrArg₂ (fun a b => collRadius ops e.state masses opts a +
          collRadius ops e.state masses opts b) (Fin.ext rfl).symm (Fin.ext rfl).symm
      · intro i0 j0 hij0 hlex hcol0
        have hmem0 := mem_pairList.mpr hij0
        have hnone := hmin (i0, j0) hmem0 (by
          simp only [pairLexLt, Fin.lt_def, Fin.ext_iff]
          exact hlex)
        rw [collCheck_none_iff] at hnone
        exact hnone hcol0
    · rw [if_neg hcol] at hfa
      exact absurd hfa (Option.noConfusion)

/-- Result record {index, v, vEsc, rCM, Mother} of detectEscape. -/
structure EscRes (K : Type) where
  index : ℕ
  v : K
  vEsc : K
  rCM : K
  Mother : K

/-- Total mass of all bodies other than k, accumulated by detectEscape. -/
def escM (masses : Fin n → K) (k : Fin n) : K :=
  ∑ i : Fin n, if i ≠ k then masses i else 0

/-- Coordinate c of the mass-weighted center of mass of the bodies other
than k (the cmx /= M division of the source). -/
def escCM (masses : Fin n → K) (s : Fin (6 * n) → K) (k : Fin n)
    (c : Fin 3) : K :=
  (∑ i : Fin n, if i ≠ k then masses i * bpos s i c else 0) / escM masses k

/-- Distance rCM of body k from the center of mass of the other bodies. -/
def escRCM (ops : FloatOps K) (masses : Fin n → K) (s : Fin (6 * n) → K)
    (k : Fin n) : K :=
  hypot3 ops (bpos s k 0 - escCM masses s k 0)
    (bpos s k 1 - escCM masses s k 1) (bpos s k 2 - escCM masses s k 2)

/-- Speed Math.hypot(vx, vy, vz) of body k. -/
def escSpeed (ops : FloatOps K) (s : Fin (6 * n) → K) (k : Fin n) : K :=
  hypot3 ops (bvel s k 0) (bvel s k 1) (bvel s k 2)

/-- Loop body of detectEscape for body k: skip when the other-body mass is
nonpositive or rCM < maxSepAU, otherwise report k when its speed meets the
escape speed sqrt(2*G*M / max(rCM, 1e-16)) * fudge. -/
def escCheck (ops : FloatOps K) (masses : Fin n → K) (s : Fin (6 * n) → K)
    (maxSepAU fudge : K) (k : Fin n) : Option (EscRes K) :=
  if escM masses k ≤ 0 then none
  else if escRCM ops masses s k < maxSepAU then none
  else if ops.sqrt (2 * G * escM masses k /
      max (escRCM ops masses s k) (1 / 10 ^ 16)) * fudge ≤ escSpeed ops s k then
    some ⟨k.val, escSpeed ops s k,
      ops.sqrt (2 * G * escM masses k /
        max (escRCM ops masses s k) (1 / 10 ^ 16)) * fudge,
      escRCM ops masses s k, escM masses k⟩
  else none

/-- detectEscape (physics.js lines 174-214): scan bodies in index order and
return the first instantaneous escaper, else null.  maxSepAU and fudge keep
their JS default values 5.0 and 1.1 at the call sites that omit them. -/
def detectEscape (ops : FloatOps K) (e : NBodyRK4 K n) (masses : Fin n → K)
    (maxSepAU fudge : K) : Option (EscRes K) :=
  (List.finRange n).findSome? (escCheck ops masses e.state maxSepAU fudge)

/-- Body k qualifies as escaping in the claimed sense: it is at least
maxSepAU from the center of mass of the others and its speed meets
sqrt(2*G*M_other/rCM) * fudge. -/
def escQualifies (ops : FloatOps K) (masses : Fin n → K)
    (s : Fin (6 * n) → K) (maxSepAU fudge : K) (k : Fin n) : Prop :=
  maxSepAU ≤ escRCM ops masses s k ∧
  ops.sqrt (2 * G * escM masses k / escRCM ops masses s k) * fudge ≤
    escSpeed ops s k

/-- Specification of detectEscape claimed by the spec: null exactly when no
body qualifies, otherwise the report names the lowest-index qualifying body
with its speed, escape speed, rCM and other-body mass. -/
def escapeSpec (ops : FloatOps K) (e : NBodyRK4 K n) (masses : Fin n → K)
    (maxSepAU fudge : K) : Prop :=
  match detectEscape ops e masses maxSepAU fudge with
  | none => ∀ k : Fin n, ¬ escQualifies ops masses e.state maxSepAU fudge k
  | some r =>
      ∃ hk : r.index < n,
        escQualifies ops masses e.state maxSepAU fudge ⟨r.index, hk⟩ ∧
        r.v = escSpeed ops e.state ⟨r.index, hk⟩ ∧
        r.vEsc = ops.sqrt (2 * G * escM masses ⟨r.index, hk⟩ /
          escRCM ops masses e.state ⟨r.index, hk⟩) * fudge ∧
        r.rCM = escRCM ops masses e.state ⟨r.index, hk⟩ ∧
        r.Mother = escM masses ⟨r.index, hk⟩ ∧
        ∀ k : Fin n, k.val < r.index →
          ¬ escQualifies ops masses e.state maxSepAU fudge k

lemma escM_pos (hn : 2 ≤ n) (masses : Fin n → K) (hm : ∀ i, 0 < masses i)
    (k : Fin n) : 0 < escM masses k := by
  rw [escM]
  have hlt : (if k.val = 0 then 1 else 0) < n := by
    split <;> omega
  have hne : ((⟨if k.val = 0 then 1 else 0, hlt⟩ : Fin n)) ≠ k := by
    intro heq
    have hval : (if k.val = 0 then 1 else 0) = k.val := congrArg Fin.val heq
    by_cases h0 : k.val = 0
    · rw [if_pos h0] at hval
      omega
    · rw [if_neg h0] at hval
      omega
  refine Finset.sum_pos' (fun i _ => ?_) ⟨⟨if k.val = 0 then 1 else 0, hlt⟩,
    Finset.mem_univ _, ?_⟩
  · by_cases h : i ≠ k
    · rw [if_pos h]
      exact (hm i).le
    · rw [if_neg h]
  · rw [if_pos hne]
    exact hm _

lemma escCheck_none_iff (ops : FloatOps K) (masses : Fin n → K)
    (s : Fin (6 * n) → K) (maxSepAU fudge : K) (k : Fin n)
    (hM : 0 < escM masses k) (hsep : (1 : K) / 10 ^ 16 ≤ maxSepAU) :
    escCheck ops masses s maxSepAU fudge k = none ↔
      ¬ escQualifies ops masses s maxSepAU fudge k := by
  rw [escCheck, if_neg (not_le.mpr hM)]
  by_cases h2 : escRCM ops masses s k < maxSepAU
  · rw [if_pos h2]
    simp only [escQualifies, not_and, true_iff]
    intro hle
    exact absurd h2 (not_lt.mpr hle)
  · rw [if_neg h2]
    have hmax : max (escRCM ops masses s k) ((1 : K) / 10 ^ 16) =
        escRCM ops masses s k :=
      max_eq_left (le_trans hsep (not_lt.mp h2))
    rw [hmax]
    by_cases h3 : ops.sqrt (2 * G * escM masses k /
        escRCM ops masses s k) * fudge ≤ escSpeed ops s k
    · rw [if_pos h3]
      simp only [escQualifies]
      constructor
      · intro habs
        exact absurd habs (Option.noConfusion)
      · intro habs
        exact absurd ⟨not_lt.mp h2, h3⟩ habs
    · rw [if_neg h3]
      simp only [escQualifies, true_iff]
      intro habs
      exact h3 habs.2

/-- Claim C5: with positive masses (so the other-body mass is always
positive, n ≥ 2) and maxSepAU at least 1e-16 (so Math.max(rCM, 1e-16) is
rCM on every considered body), detectEscape returns the lowest-index body
whose distance rCM from the center of mass of the others is at least
maxSepAU and whose speed meets sqrt(2*G*M_other/rCM) * fudge, reporting
{index, speed, escape speed, rCM, other mass}; bodies with rCM < maxSepAU
are skipped and null is returned when no body qualifies. -/
theorem detectEscape_lowest_index (ops : FloatOps K) (e : NBodyRK4 K n)
    (masses : Fin n → K) (maxSepAU fudge : K) (hn : 2 ≤ n)
    (hm : ∀ i, 0 < masses i) (hsep : (1 : K) / 10 ^ 16 ≤ maxSepAU) :
    escapeSpec ops e masses maxSepAU fudge := by
  have hM := escM_pos hn masses hm
  cases hres : detectEscape ops e masses maxSepAU fudge with
  | none =>
    simp only [escapeSpec, hres]
    intro k hq
    rw [detectEscape] at hres
    have hnone := List.findSome?_eq_none_iff.mp hres k (List.mem_finRange k)
    rw [escCheck_none_iff ops masses e.state maxSepAU fudge k (hM k) hsep] at hnone
    exact hnone hq
  | some r =>
    simp only [escapeSpec, hres]
    rw [detectEscape] at hres
    obtain ⟨k, _, hfk, hmin⟩ :=
      findSome?_sorted_first (fun x y : Fin n => lt_asymm)
        (List.pairwise_lt_finRange n) hres
    rw [escCheck, if_neg (not_le.mpr (hM k))] at hfk
    by_cases h2 : escRCM ops masses e.state k < maxSepAU
    · rw [if_pos h2] at hfk
      exact absurd hfk (Option.noConfusion)
    · rw [if_neg h2] at hfk
      have hmax : max (escRCM ops masses e.state k) ((1 : K) / 10 ^ 16) =
          escRCM ops masses e.state k :=
        max_eq_left (le_trans hsep (not_lt.mp h2))
      rw [hmax] at hfk
      by_cases h3 : ops.sqrt (2 * G * escM masses k /
          escRCM ops masses e.state k) * fudge ≤ escSpeed ops e.state k
      · rw [if_pos h3] at hfk
        have hr := (Option.some.injEq _ _).mp hfk
        subst hr
        refine ⟨k.isLt, ?_, ?_, ?_, ?_, ?_, ?_⟩
        · exact ⟨by rw [Fin.eta]; exact not_lt.mp h2, by rw [Fin.eta]; exact h3⟩
        · rw [Fin.eta]
        · rw [Fin.eta]
        · rw [Fin.eta]
        · rw [Fin.eta]
        · intro k0 hk0 hq0
          have hnone := hmin k0 (List.mem_finRange k0) (Fin.lt_def.mpr hk0)
          rw [escCheck_none_iff ops masses e.state maxSepAU fudge k0 (hM k0)
            hsep] at hnone
          exact hnone hq0
      · rw [if_neg h3] at hfk
        exact absurd hfk (Option.noConfusion)

/-- Concrete operation table over ℚ used to instantiate theorems with
hypotheses at a computable input. -/
def qOps : FloatOps ℚ :=
  { sqrt := fun x => x, fpow := fun x _ => x }

/-- Concrete two-body engine over ℚ: unit masses at the origin, at rest. -/
def qEngine : NBodyRK4 ℚ 2 :=
  mkNBodyF (fun _ => 1) (fun _ _ => 0) (fun _ _ => 0) 0

theorem detectEscape_lowest_index_witness :
    escapeSpec qOps qEngine (fun _ => (1 : ℚ)) 5 (11 / 10) :=
  detectEscape_lowest_index qOps qEngine (fun _ => (1 : ℚ)) 5 (11 / 10)
    (by decide) (by decide) (by norm_num)

end Physics

namespace App

variable {K : Type} [LinearOrderedField K] {n : ℕ}

/-!
Driver loop of src/app.js.  The mutable module state read and written by
frame() is the engine, the paused flag, the time scale and the sim clock;
the renderer and HUD calls only display values and are outside the state.
-/

/-- Mutable driver state of app.js touched by frame(). -/
structure AppState (K : Type) (n : ℕ) where
  engine : Option (Physics.NBodyRK4 K n)
  paused : Bool
  timeScale : K
  simTimeDays : K

/-- frame (src/app.js lines 74-91, and the merged variant at 220-241): one
animation callback.  When an engine exists and the simulation is not
paused it runs subSteps = 4 integrator sub-steps of dt = delta * timeScale
/ 4 each, accumulates the advanced time onto the sim clock, and updates
the renderer; otherwise it only renders.  The body contains no call to
detectCollision or detectEscape and never assigns the paused flag. -/
def frame (ops : Physics.FloatOps K) (st : AppState K n) (delta : K) :
    AppState K n :=
  match st.engine with
  | none => st
  | some eng =>
    if st.paused then st
    else
      let dt := delta * st.timeScale / 4
      let e4 := Physics.step ops (Physics.step ops (Physics.step ops
        (Physics.step ops eng dt) dt) dt) dt
      { st with
          engine := some e4
          simTimeDays := st.simTimeDays + (dt + dt + dt + dt) }

/-- Claim C7 evidence: the frame driver never changes the pause flag, in
particular no collision or escape detection ever sets it — the detectors
of physics.js are never invoked by the driver loop. -/
theorem frame_preserves_paused (ops : Physics.FloatOps K)
    (st : AppState K n) (delta : K) :
    (frame ops st delta).paused = st.paused := by
  rcases hE : st.engine with _ | eng
  · simp only [frame, hE]
  · simp only [frame, hE]
    by_cases hp : st.paused
    · rw [if_pos hp]
    · rw [if_neg hp]

end App
